import Mathlib

/-!
Verification of the constant-extraction and disambiguation logic of the
string-table generator (script/generate-strings.py).

The generator scans preprocessed header text with per-family regular
expressions; each scan yields a sequence of (identifier name, literal code)
pairs which is then folded into dictionaries and sets.  We embed the program
at the level of those match sequences: a run of the generator is a pure
function of the six per-family match lists.  Python dictionaries are embedded
as association lists with update-in-place / append-at-end semantics; Python
sets as duplicate-free lists whose only observers are membership and sorted
iteration.  The statement `del d[k]` raises KeyError when the key is absent,
so the selector pass is embedded as an Option-valued fold whose `none`
result marks that abnormal termination.  Python string operations are
embedded over the character lists of Lean strings: `str.startswith` is
prefix testing and string comparison is the lexicographic order on
characters.
-/

/-- Python `a.startswith(p)`: `p` is a prefix of `a`. -/
def strStartsWith (a p : String) : Bool :=
  p.data.isPrefixOf a.data

/-- Lexicographic comparison of character lists, mirroring how Python
compares two strings. -/
def charsLt : List Char → List Char → Bool
  | [], [] => false
  | [], _ :: _ => true
  | _ :: _, [] => false
  | a :: as, b :: bs => if a < b then true else if b < a then false else charsLt as bs

/-- Strict lexicographic order on strings (Python `a < b`). -/
def strlt (a b : String) : Prop :=
  charsLt a.data b.data = true

/-- Lexicographic order on strings (Python `a <= b`). -/
def strle (a b : String) : Prop :=
  charsLt b.data a.data = false

instance : DecidableRel strlt := fun _ _ => instDecidableEqBool _ _

instance : DecidableRel strle := fun _ _ => instDecidableEqBool _ _

/-- A Python dictionary with string keys and values, embedded as an
association list in insertion order. -/
abbrev Dict := List (String × String)

/-- Dictionary lookup: value of the first entry with the given key. -/
def dictLookup (d : Dict) (k : String) : Option String :=
  match d with
  | [] => none
  | p :: rest => if p.1 = k then some p.2 else dictLookup rest k

/-- Dictionary assignment `d[k] = v`: update in place when the key exists,
append a fresh entry otherwise (Python dict semantics). -/
def dictInsert (d : Dict) (k v : String) : Dict :=
  if (dictLookup d k).isSome then
    d.map (fun p => if p.1 = k then (k, v) else p)
  else
    d ++ [(k, v)]

/-- Dictionary deletion of all entries with the given key (`del d[k]` on a
dictionary whose keys are unique). -/
def dictErase (d : Dict) (k : String) : Dict :=
  d.filter (fun p => p.1 != k)

/-- The keys of a dictionary, in insertion order. -/
def dictKeys (d : Dict) : List String :=
  d.map Prod.fst

/-- Python set insertion: `s.add(n)`, observed through membership only. -/
def setInsert (s : List String) (n : String) : List String :=
  if n ∈ s then s else s ++ [n]

/-- The high-priority name prefixes of `selector_is_better`. -/
def highprio_prefixes : List String :=
  ["kAudioObject", "kAudioDevice", "kAudioStream",
   "kAudioControl", "kAudioLevelControl", "kAudioPlugIn"]

/-- `any([a.startswith(prefix) for prefix in highprio_prefixes])`. -/
def is_highprio (a : String) : Bool :=
  highprio_prefixes.any (fun p => strStartsWith a p)

/-- `selector_is_better(a, b)`: whether selector name `a` is preferred over
selector name `b`.  Mirrors the source: equal priority classes fall back to
a strict length comparison, otherwise the high-priority name wins. -/
def selector_is_better (a b : String) : Bool :=
  if is_highprio a = is_highprio b then
    decide (a.length < b.length)
  else
    is_highprio a

/-- `True` when the name falls under none of the four exclusion checks of
the selector fill loop (scope, element, hardware-error and
custom-property-type markers). -/
def notExcluded (n : String) : Bool :=
  !(strStartsWith n "kAudioObjectPropertyScope" ||
    strStartsWith n "kAudioObjectPropertyElement" ||
    strStartsWith n "kAudioHardware" ||
    strStartsWith n "kAudioServerPlugInCustomPropertyDataType")

/-- State of the selector fill loop: the forward map `selector2code` and the
reverse map `code2selector`. -/
structure SelState where
  selector2code : Dict
  code2selector : Dict
deriving DecidableEq

/-- One iteration of the selector fill loop on a match `(name, code)`.
Mirrors the source line by line: the four exclusion checks `continue`;
a duplicate code triggers the disambiguation, where the losing incumbent is
removed with `del selector2code[other_name]` — embedded as `none` when that
key is absent, since Python raises KeyError there. -/
def selectorStep (st : SelState) (name code : String) : Option SelState :=
  if strStartsWith name "kAudioObjectPropertyScope" then some st
  else if strStartsWith name "kAudioObjectPropertyElement" then some st
  else if strStartsWith name "kAudioHardware" then some st
  else if strStartsWith name "kAudioServerPlugInCustomPropertyDataType" then some st
  else
    match dictLookup st.code2selector code with
    | some other_name =>
      if selector_is_better name other_name then
        if (dictLookup st.selector2code other_name).isSome then
          some ⟨dictInsert (dictErase st.selector2code other_name) name code,
                dictInsert st.code2selector code name⟩
        else
          none
      else
        some st
    | none =>
      some ⟨dictInsert st.selector2code name code,
            dictInsert st.code2selector code name⟩

/-- The selector fill loop from a given starting state. -/
def fillSelectorFrom : SelState → List (String × String) → Option SelState
  | st, [] => some st
  | st, (n, c) :: rest =>
    match selectorStep st n c with
    | some st' => fillSelectorFrom st' rest
    | none => none

/-- The selector fill loop over the matches of the selector pattern, from
empty dictionaries. -/
def fillSelector (l : List (String × String)) : Option SelState :=
  fillSelectorFrom ⟨[], []⟩ l

/-- The plain fill loops (class2code, scope2code, operation2code,
error2code): each match does `d[name] = code`. -/
def fillMap (l : List (String × String)) : Dict :=
  l.foldl (fun d p => dictInsert d p.1 p.2) []

/-- One iteration of the formatID / formatFlag fill loop. -/
def formatStep (acc : List String × List String) (p : String × String) :
    List String × List String :=
  if strStartsWith p.1 "kAudioFormatFlag" then
    if p.2 ≠ "0" then (acc.1, setInsert acc.2 p.1) else acc
  else
    (setInsert acc.1 p.1, acc.2)

/-- The formatID / formatFlag fill loop: first component is `formatID`,
second is `formatFlag`. -/
def fillFormats (l : List (String × String)) : List String × List String :=
  l.foldl formatStep ([], [])

/-- Python `sorted` over a list of names. -/
def sortedNames (l : List String) : List String :=
  List.insertionSort strle l

/-- The case labels a switch-family template loop emits for a dictionary:
`sorted(d.keys())`. -/
def mapCaseLabels (d : Dict) : List String :=
  sortedNames (dictKeys d)

/-- The case labels the template emits for a set family: `sorted(s)`. -/
def setCaseLabels (s : List String) : List String :=
  sortedNames s

/-- The full case-label sequence of the generated StatusToString: the
hard-coded success case followed by the sorted error names. -/
def statusCaseLabels (e : Dict) : List String :=
  "kAudioHardwareNoError" :: mapCaseLabels e

/-- The comparison the fold winner is chosen by in a single-code conflict
group: the challenger replaces the incumbent exactly when it is strictly
better. -/
def pick (cur n : String) : String :=
  if selector_is_better n cur then n else cur

/-- Semantics of one emitted FormatFlagsToString branch: test the flag bit,
then append a separator (when the accumulator is nonempty) and the name. -/
def ffStep (env : String → Nat) (flags : Nat) (ret name : String) : String :=
  if (flags &&& env name) != 0 then
    (if ret ≠ "" then ret ++ "|" else ret) ++ name
  else
    ret

/-- Semantics of the generated FormatFlagsToString, given an environment
assigning to each flag name its numeric value. -/
def formatFlagsToString (env : String → Nat) (flags : Nat) (fl : List String) :
    String :=
  (setCaseLabels fl).foldl (ffStep env flags) ""

/-- Separator join: the names concatenated with the separator between
consecutive elements. -/
def sepJoin (sep : String) : List String → String
  | [] => ""
  | x :: xs => x ++ String.join (xs.map (fun n => sep ++ n))

/-- Accumulator step of the separator join. -/
def barStep (r n : String) : String :=
  if r ≠ "" then r ++ "|" ++ n else n

/-- A sample environment assigning every flag name the numeric value 1,
used to evaluate the FormatFlagsToString semantics on concrete inputs. -/
def constOneEnv : String → Nat :=
  fun _ => 1

/-- The two output lines the template emits per case label of a
switch-based family. -/
def caseLines (names : List String) : List String :=
  (names.map (fun n =>
    ["    case " ++ n ++ ":",
     "        return \"" ++ n ++ "\";"])).join

/-- A rendered switch-based lookup function: signature, sorted case labels,
default branch calling the numeric fallback formatter. -/
def switchFnLines (sig arg : String) (labels : List String) : List String :=
  [sig, "\x7b", "    switch (" ++ arg ++ ") \x7b"] ++ caseLines labels ++
  ["    default:",
   "        return CodeToString(" ++ arg ++ ");",
   "    \x7d", "\x7d"]

/-- The rendered StatusToString: a hard-coded success case precedes the
sorted error labels. -/
def statusFnLines (labels : List String) : List String :=
  ["std::string StatusToString(OSStatus status)", "\x7b",
   "    switch (status) \x7b",
   "    case kAudioHardwareNoError:",
   "        return \"OK\";"] ++ caseLines labels ++
  ["    default:",
   "        return CodeToString(UInt32(status));",
   "    \x7d", "\x7d"]

/-- The output lines the template emits per sorted flag name in
FormatFlagsToString. -/
def flagLines (names : List String) : List String :=
  (names.map (fun n =>
    ["    if (formatFlags & " ++ n ++ ") \x7b",
     "        if (!ret.empty()) \x7b",
     "            ret += \"|\";",
     "        \x7d",
     "        ret += \"" ++ n ++ "\";",
     "    \x7d"])).join

/-- The rendered FormatFlagsToString: an accumulator over the sorted flag
names, with no default branch. -/
def flagsFnLines (names : List String) : List String :=
  ["std::string FormatFlagsToString(AudioFormatFlags formatFlags)", "\x7b",
   "    std::string ret;"] ++ flagLines names ++
  ["    return ret;", "\x7d"]

/-- The full rendered template over the six mappings and sets. -/
def renderText (sel cls sc op err : Dict) (fid ffl : List String) : String :=
  String.intercalate "\n" (
    ["// THIS FILE IS AUTO-GENERATED. DO NOT EDIT!", "",
     "// Generator: generate-strings.py",
     "// Source: CoreAudio/AudioServerPlugIn.h", "",
     "// Copyright (c) libASPL authors",
     "// Licensed under MIT", "",
     "#include \"Strings.hpp\"", "",
     "namespace aspl \x7b", ""]
    ++ switchFnLines "std::string ClassIDToString(AudioClassID classID)"
        "classID" (mapCaseLabels cls) ++ [""]
    ++ switchFnLines
        "std::string PropertySelectorToString(AudioObjectPropertySelector selector)"
        "selector" (mapCaseLabels sel) ++ [""]
    ++ switchFnLines "std::string PropertyScopeToString(AudioObjectPropertyScope scope)"
        "scope" (mapCaseLabels sc) ++ [""]
    ++ switchFnLines "std::string OperationIDToString(UInt32 operationID)"
        "operationID" (mapCaseLabels op) ++ [""]
    ++ statusFnLines (mapCaseLabels err) ++ [""]
    ++ switchFnLines "std::string FormatIDToString(AudioFormatID formatID)"
        "formatID" (setCaseLabels fid) ++ [""]
    ++ flagsFnLines (setCaseLabels ffl) ++
    ["", "\x7d // namespace aspl"])

/-- One full run of the generator over the six per-family match lists:
extraction, disambiguation and template rendering (the final newline is the
one `print` appends).  `none` marks the KeyError abort of the selector
pass. -/
def runGenerator (selM classM scopeM opM errM fmtM : List (String × String)) :
    Option (SelState × Dict × Dict × Dict × Dict ×
      (List String × List String) × String) :=
  match fillSelector selM with
  | none => none
  | some st =>
    some (st, fillMap classM, fillMap scopeM, fillMap opM, fillMap errM,
      fillFormats fmtM,
      renderText st.selector2code (fillMap classM) (fillMap scopeM)
        (fillMap opM) (fillMap errM) (fillFormats fmtM).1
        (fillFormats fmtM).2 ++ "\n")

/-! ### Order theory of the lexicographic string comparison -/

theorem charsLt_irrefl : ∀ l, charsLt l l = false
  | [] => rfl
  | a :: as => by simp [charsLt, lt_irrefl a, charsLt_irrefl as]

theorem charsLt_asymm : ∀ {l₁ l₂}, charsLt l₁ l₂ = true → charsLt l₂ l₁ = false
  | [], [], h => by simpa [charsLt] using h
  | [], _ :: _, _ => by simp [charsLt]
  | _ :: _, [], h => by simpa [charsLt] using h
  | a :: as, b :: bs, h => by
    by_cases hab : a < b
    · have hba : ¬ b < a := lt_asymm hab
      have hne : ¬ b = a := fun e => absurd (e ▸ hab) (lt_irrefl a)
      simp [charsLt, hba, hab]
    · by_cases hba : b < a
      · simp [charsLt, hab, hba] at h
      · simp only [charsLt, if_neg hab, if_neg hba] at h
        simp [charsLt, hab, hba, charsLt_asymm h]

theorem charsLt_trans : ∀ {l₁ l₂ l₃}, charsLt l₁ l₂ = true → charsLt l₂ l₃ = true →
    charsLt l₁ l₃ = true
  | [], [], _, h, _ => by simpa [charsLt] using h
  | [], _ :: _, [], _, h => by simpa [charsLt] using h
  | [], _ :: _, _ :: _, _, _ => by simp [charsLt]
  | _ :: _, [], _, h, _ => by simpa [charsLt] using h
  | _ :: _, _ :: _, [], _, h => by simpa [charsLt] using h
  | a :: as, b :: bs, c :: cs, h₁, h₂ => by
    by_cases hab : a < b
    · by_cases hbc : b < c
      · simp [charsLt, lt_trans hab hbc]
      · by_cases hcb : c < b
        · simp [charsLt, hbc, hcb] at h₂
        · have hbc' : b = c := le_antisymm (not_lt.mp hcb) (not_lt.mp hbc)
          simp [charsLt, hbc' ▸ hab]
    · by_cases hba : b < a
      · simp [charsLt, hab, hba] at h₁
      · have hab' : a = b := le_antisymm (not_lt.mp hba) (not_lt.mp hab)
        simp only [charsLt, if_neg hab, if_neg hba] at h₁
        by_cases hbc : b < c
        · simp [charsLt, hab' ▸ hbc]
        · by_cases hcb : c < b
          · simp [charsLt, hbc, hcb] at h₂
          · simp only [charsLt, if_neg hbc, if_neg hcb] at h₂
            have hbc' : b = c := le_antisymm (not_lt.mp hcb) (not_lt.mp hbc)
            subst hab'; subst hbc'
            simp [charsLt, lt_irrefl a, charsLt_trans h₁ h₂]

theorem charsLt_conn : ∀ {l₁ l₂}, charsLt l₁ l₂ = false → charsLt l₂ l₁ = false → l₁ = l₂
  | [], [], _, _ => rfl
  | [], _ :: _, h, _ => by simp [charsLt] at h
  | _ :: _, [], _, h => by simp [charsLt] at h
  | a :: as, b :: bs, h₁, h₂ => by
    by_cases hab : a < b
    · simp [charsLt, hab] at h₁
    · by_cases hba : b < a
      · simp [charsLt, hba] at h₂
      · have hab' : a = b := le_antisymm (not_lt.mp hba) (not_lt.mp hab)
        simp only [charsLt, if_neg hab, if_neg hba] at h₁
        simp only [charsLt, if_neg hba, if_neg hab] at h₂
        rw [hab', charsLt_conn h₁ h₂]

instance : IsTotal String strle := by
  constructor
  intro a b
  by_cases h : charsLt a.data b.data = true
  · exact Or.inl (charsLt_asymm h)
  · exact Or.inr (by simpa [strle] using h)

instance : IsTrans String strle := by
  constructor
  intro a b c hab hbc
  by_cases hca : charsLt c.data a.data = true
  · by_cases hbcd : charsLt b.data c.data = true
    · exact absurd (charsLt_trans hbcd hca) (by simpa [strle] using hab)
    · have : b.data = c.data := charsLt_conn (by simpa using hbcd)
        (by simpa [strle] using hbc)
      exact absurd (this ▸ hca) (by simpa [strle] using hab)
  · simpa [strle] using hca

theorem strlt_of_strle_of_ne {a b : String} (hle : strle a b) (hne : a ≠ b) : strlt a b := by
  by_cases h : charsLt a.data b.data = true
  · exact h
  · exact absurd (String.ext (charsLt_conn (by simpa using h) hle)) hne

/-- A Python `sorted` pass over duplicate-free names yields a strictly
ascending list. -/
theorem sortedNames_strict (l : List String) (h : l.Nodup) :
    (sortedNames l).Pairwise strlt := by
  have hs : (sortedNames l).Pairwise strle := List.sorted_insertionSort strle l
  have hn : (sortedNames l).Pairwise (· ≠ ·) :=
    ((List.perm_insertionSort strle l).nodup_iff.mpr h : (sortedNames l).Nodup)
  exact (hs.and hn).imp (fun hab => strlt_of_strle_of_ne hab.1 hab.2)

/-! ### Dictionary lemmas -/

theorem dictLookup_eq_none_iff (d : Dict) (k : String) :
    dictLookup d k = none ↔ ∀ p ∈ d, p.1 ≠ k := by
  induction d with
  | nil => simp [dictLookup]
  | cons a rest ih =>
    by_cases h : a.1 = k
    · simp [dictLookup, h]
    · simp [dictLookup, h, ih]

theorem dictLookup_isSome_exists {d : Dict} {k : String}
    (h : (dictLookup d k).isSome = true) : ∃ w, (k, w) ∈ d := by
  induction d with
  | nil => simp [dictLookup] at h
  | cons a rest ih =>
    by_cases hk : a.1 = k
    · exact ⟨a.2, by simp [← hk]⟩
    · simp only [dictLookup, if_neg hk] at h
      obtain ⟨w, hw⟩ := ih h
      exact ⟨w, List.mem_cons_of_mem a hw⟩

theorem dictLookup_map_replace_eq {k v : String} : ∀ (d : Dict),
    (dictLookup d k).isSome = true →
    dictLookup (d.map (fun p => if p.1 = k then (k, v) else p)) k = some v := by
  intro d
  induction d with
  | nil => intro h; simp [dictLookup] at h
  | cons a rest ih =>
    intro h
    by_cases hk : a.1 = k
    · simp [dictLookup, hk]
    · simp only [dictLookup, if_neg hk] at h
      simp [dictLookup, hk, ih h]

theorem dictLookup_map_replace_ne {k v k' : String} (hne : k' ≠ k) : ∀ (d : Dict),
    dictLookup (d.map (fun p => if p.1 = k then (k, v) else p)) k' = dictLookup d k' := by
  intro d
  induction d with
  | nil => simp
  | cons a rest ih =>
    by_cases hk : a.1 = k
    · have hk' : ¬ a.1 = k' := fun e => hne (e ▸ hk ▸ rfl)
      simp [dictLookup, hk, hk', Ne.symm hne, ih]
    · by_cases hk' : a.1 = k'
      · simp [dictLookup, hk, hk', hne]
      · simp [dictLookup, hk, hk', ih]

theorem dictLookup_append_single {k v k' : String} : ∀ (d : Dict),
    dictLookup d k = none →
    dictLookup (d ++ [(k, v)]) k' = if k' = k then some v else dictLookup d k' := by
  intro d
  induction d with
  | nil => intro _; simp [dictLookup, eq_comm]
  | cons a rest ih =>
    intro hnone
    by_cases hk : a.1 = k
    · simp [dictLookup, hk] at hnone
    · simp only [dictLookup, if_neg hk] at hnone
      by_cases hk' : a.1 = k'
      · have : ¬ k' = k := fun e => hk (hk' ▸ e)
        simp [dictLookup, hk', this]
      · simp only [List.cons_append, dictLookup, if_neg hk']
        exact ih hnone

theorem dictLookup_dictInsert (d : Dict) (k v k' : String) :
    dictLookup (dictInsert d k v) k' = if k' = k then some v else dictLookup d k' := by
  by_cases h : (dictLookup d k).isSome
  · simp only [dictInsert, if_pos h]
    by_cases hk' : k' = k
    · subst hk'
      simp [dictLookup_map_replace_eq d h]
    · simp [dictLookup_map_replace_ne hk' d, hk']
  · have hnone : dictLookup d k = none := Option.not_isSome_iff_eq_none.mp h
    simp only [dictInsert, if_neg h]
    exact dictLookup_append_single d hnone

theorem mem_dictInsert {p : String × String} {d : Dict} {k v : String} :
    p ∈ dictInsert d k v ↔ p = (k, v) ∨ (p ∈ d ∧ p.1 ≠ k) := by
  by_cases h : (dictLookup d k).isSome
  · simp only [dictInsert, if_pos h, List.mem_map]
    constructor
    · rintro ⟨q, hq, rfl⟩
      by_cases hqk : q.1 = k
      · exact Or.inl (by simp [hqk])
      · exact Or.inr ⟨by simpa [hqk] using hq, by simpa [hqk] using hqk⟩
    · rintro (rfl | ⟨hp, hpk⟩)
      · obtain ⟨w, hw⟩ := dictLookup_isSome_exists h
        exact ⟨(k, w), hw, by simp⟩
      · exact ⟨p, hp, by simp [hpk]⟩
  · have hnone : dictLookup d k = none := Option.not_isSome_iff_eq_none.mp h
    have hkeys := (dictLookup_eq_none_iff d k).mp hnone
    simp only [dictInsert, if_neg h, List.mem_append, List.mem_singleton]
    constructor
    · rintro (hp | rfl)
      · exact Or.inr ⟨hp, hkeys p hp⟩
      · exact Or.inl rfl
    · rintro (rfl | ⟨hp, _⟩)
      · exact Or.inr rfl
      · exact Or.inl hp

theorem mem_dictErase {p : String × String} {d : Dict} {k : String} :
    p ∈ dictErase d k ↔ p ∈ d ∧ p.1 ≠ k := by
  simp [dictErase, List.mem_filter, bne_iff_ne]

theorem dictKeys_dictInsert_isSome {d : Dict} {k v : String}
    (h : (dictLookup d k).isSome = true) :
    dictKeys (dictInsert d k v) = dictKeys d := by
  simp only [dictInsert, if_pos h, dictKeys, List.map_map]
  apply List.map_congr_left
  intro p _
  by_cases hk : p.1 = k <;> simp [hk]

theorem dictKeys_dictInsert_none {d : Dict} {k v : String}
    (h : dictLookup d k = none) :
    dictKeys (dictInsert d k v) = dictKeys d ++ [k] := by
  simp [dictInsert, h, dictKeys]

theorem nodup_dictKeys_dictInsert {d : Dict} {k v : String}
    (h : (dictKeys d).Nodup) : (dictKeys (dictInsert d k v)).Nodup := by
  by_cases hs : (dictLookup d k).isSome
  · rwa [dictKeys_dictInsert_isSome hs]
  · have hnone : dictLookup d k = none := Option.not_isSome_iff_eq_none.mp hs
    rw [dictKeys_dictInsert_none hnone]
    have hk : k ∉ dictKeys d := by
      intro hmem
      obtain ⟨p, hp, hpk⟩ := List.mem_map.mp hmem
      exact (dictLookup_eq_none_iff d k).mp hnone p hp hpk
    simp [List.nodup_append, h, hk]

theorem nodup_dictKeys_dictErase {d : Dict} {k : String}
    (h : (dictKeys d).Nodup) : (dictKeys (dictErase d k)).Nodup :=
  h.sublist (List.Sublist.map Prod.fst (List.filter_sublist d))

theorem mem_setInsert {s : List String} {m n : String} :
    n ∈ setInsert s m ↔ n = m ∨ n ∈ s := by
  by_cases h : m ∈ s
  · constructor
    · intro hn; simp only [setInsert, if_pos h] at hn; exact Or.inr hn
    · rintro (rfl | hn)
      · simpa [setInsert, h]
      · simpa [setInsert, h]
  · simp only [setInsert, if_neg h, List.mem_append, List.mem_singleton]
    exact or_comm

theorem nodup_setInsert {s : List String} {m : String} (h : s.Nodup) :
    (setInsert s m).Nodup := by
  by_cases hm : m ∈ s
  · simpa [setInsert, hm]
  · simp [setInsert, hm, List.nodup_append, h]

/-! ### Case analysis of one selector fill iteration -/

theorem selectorStep_cases {st st' : SelState} {n c : String}
    (h : selectorStep st n c = some st') :
    st' = st ∨
    (dictLookup st.code2selector c = none ∧
      st' = ⟨dictInsert st.selector2code n c, dictInsert st.code2selector c n⟩ ∧
      notExcluded n = true) ∨
    (∃ other, dictLookup st.code2selector c = some other ∧
      selector_is_better n other = true ∧
      (dictLookup st.selector2code other).isSome = true ∧
      st' = ⟨dictInsert (dictErase st.selector2code other) n c,
             dictInsert st.code2selector c n⟩ ∧
      notExcluded n = true) := by
  unfold selectorStep at h
  split_ifs at h with h1 h2 h3 h4
  · exact Or.inl (Option.some.inj h).symm
  · exact Or.inl (Option.some.inj h).symm
  · exact Or.inl (Option.some.inj h).symm
  · exact Or.inl (Option.some.inj h).symm
  · have hnx : notExcluded n = true := by
      simp [notExcluded, h1, h2, h3, h4]
    split at h
    · rename_i other heq
      split_ifs at h with hb hs
      · exact Or.inr (Or.inr ⟨other, heq, hb, hs, (Option.some.inj h).symm, hnx⟩)
      · exact Or.inl (Option.some.inj h).symm
    · rename_i heq
      exact Or.inr (Or.inl ⟨heq, (Option.some.inj h).symm, hnx⟩)

/-- One selector iteration preserves the forward-consistency invariant:
every forward entry is mirrored by the reverse map. -/
theorem selectorStep_fwd {st st' : SelState} {n c : String}
    (h : selectorStep st n c = some st')
    (inv : ∀ m cc, (m, cc) ∈ st.selector2code →
      dictLookup st.code2selector cc = some m) :
    ∀ m cc, (m, cc) ∈ st'.selector2code →
      dictLookup st'.code2selector cc = some m := by
  rcases selectorStep_cases h with rfl | ⟨hnone, rfl, _⟩ | ⟨other, heq, _, _, rfl, _⟩
  · exact inv
  · intro m cc hm
    rcases mem_dictInsert.mp hm with hm | ⟨hm, hne⟩
    · obtain ⟨rfl, rfl⟩ : m = n ∧ cc = c := by simpa [Prod.ext_iff] using hm
      simp [dictLookup_dictInsert]
    · have hv := inv m cc hm
      by_cases hcc : cc = c
      · rw [hcc, hnone] at hv; cases hv
      · simp [dictLookup_dictInsert, hcc, hv]
  · intro m cc hm
    rcases mem_dictInsert.mp hm with hm | ⟨hm, hne⟩
    · obtain ⟨rfl, rfl⟩ : m = n ∧ cc = c := by simpa [Prod.ext_iff] using hm
      simp [dictLookup_dictInsert]
    · obtain ⟨hmem, hnother⟩ := mem_dictErase.mp hm
      have hv := inv m cc hmem
      by_cases hcc : cc = c
      · rw [hcc, heq] at hv
        exact absurd (Option.some.inj hv).symm hnother
      · simp [dictLookup_dictInsert, hcc, hv]

/-- One selector iteration preserves the exclusion invariant: no forward key
carries an excluded prefix. -/
theorem selectorStep_excl {st st' : SelState} {n c : String}
    (h : selectorStep st n c = some st')
    (inv : ∀ p : String × String, p ∈ st.selector2code → notExcluded p.1 = true) :
    ∀ p : String × String, p ∈ st'.selector2code → notExcluded p.1 = true := by
  rcases selectorStep_cases h with rfl | ⟨_, rfl, hnx⟩ | ⟨other, _, _, _, rfl, hnx⟩
  · exact inv
  · intro p hp
    rcases mem_dictInsert.mp hp with rfl | ⟨hp, _⟩
    · exact hnx
    · exact inv p hp
  · intro p hp
    rcases mem_dictInsert.mp hp with rfl | ⟨hp, _⟩
    · exact hnx
    · exact inv p (mem_dictErase.mp hp).1

/-- One selector iteration preserves key uniqueness of the forward map. -/
theorem selectorStep_nodup {st st' : SelState} {n c : String}
    (h : selectorStep st n c = some st')
    (inv : (dictKeys st.selector2code).Nodup) :
    (dictKeys st'.selector2code).Nodup := by
  rcases selectorStep_cases h with rfl | ⟨_, rfl, _⟩ | ⟨other, _, _, _, rfl, _⟩
  · exact inv
  · exact nodup_dictKeys_dictInsert inv
  · exact nodup_dictKeys_dictInsert (nodup_dictKeys_dictErase inv)

theorem fillSelectorFrom_fwd : ∀ (l : List (String × String)) (st st' : SelState),
    fillSelectorFrom st l = some st' →
    (∀ m cc, (m, cc) ∈ st.selector2code →
      dictLookup st.code2selector cc = some m) →
    ∀ m cc, (m, cc) ∈ st'.selector2code →
      dictLookup st'.code2selector cc = some m := by
  intro l
  induction l with
  | nil =>
    intro st st' h inv
    cases h
    exact inv
  | cons p rest ih =>
    intro st st' h inv
    obtain ⟨n, c⟩ := p
    simp only [fillSelectorFrom] at h
    split at h
    · rename_i st₁ hstep
      exact ih st₁ st' h (selectorStep_fwd hstep inv)
    · cases h

theorem fillSelectorFrom_excl : ∀ (l : List (String × String)) (st st' : SelState),
    fillSelectorFrom st l = some st' →
    (∀ p : String × String, p ∈ st.selector2code → notExcluded p.1 = true) →
    ∀ p : String × String, p ∈ st'.selector2code → notExcluded p.1 = true := by
  intro l
  induction l with
  | nil =>
    intro st st' h inv
    cases h
    exact inv
  | cons p rest ih =>
    intro st st' h inv
    obtain ⟨n, c⟩ := p
    simp only [fillSelectorFrom] at h
    split at h
    · rename_i st₁ hstep
      exact ih st₁ st' h (selectorStep_excl hstep inv)
    · cases h

theorem fillSelectorFrom_nodup : ∀ (l : List (String × String)) (st st' : SelState),
    fillSelectorFrom st l = some st' →
    (dictKeys st.selector2code).Nodup →
    (dictKeys st'.selector2code).Nodup := by
  intro l
  induction l with
  | nil =>
    intro st st' h inv
    cases h
    exact inv
  | cons p rest ih =>
    intro st st' h inv
    obtain ⟨n, c⟩ := p
    simp only [fillSelectorFrom] at h
    split at h
    · rename_i st₁ hstep
      exact ih st₁ st' h (selectorStep_nodup hstep inv)
    · cases h

/-! ### The formatID / formatFlag fill loop -/

theorem mem_formatStep_fst {acc : List String × List String}
    {p : String × String} {n : String} :
    n ∈ (formatStep acc p).1 ↔
      (n = p.1 ∧ strStartsWith p.1 "kAudioFormatFlag" = false) ∨ n ∈ acc.1 := by
  unfold formatStep
  split_ifs with hf hz
  · simp [hf]
  · simp [hf]
  · simp [mem_setInsert, hf]

theorem mem_formatStep_snd {acc : List String × List String}
    {p : String × String} {n : String} :
    n ∈ (formatStep acc p).2 ↔
      (n = p.1 ∧ strStartsWith p.1 "kAudioFormatFlag" = true ∧ p.2 ≠ "0") ∨
        n ∈ acc.2 := by
  unfold formatStep
  split_ifs with hf hz
  · simp [mem_setInsert, hf, hz]
  · simp only [ne_eq, Decidable.not_not] at hz
    simp [hf, hz]
  · simp [hf]

theorem foldl_formatStep_fst : ∀ (l : List (String × String))
    (acc : List String × List String) (n : String),
    n ∈ (l.foldl formatStep acc).1 ↔
      n ∈ acc.1 ∨
        ∃ c, (n, c) ∈ l ∧ strStartsWith n "kAudioFormatFlag" = false := by
  intro l
  induction l with
  | nil => simp
  | cons p rest ih =>
    intro acc n
    simp only [List.foldl_cons]
    rw [ih]
    constructor
    · rintro (hacc | ⟨c, hc, hflag⟩)
      · rcases mem_formatStep_fst.mp hacc with ⟨rfl, hf⟩ | hacc'
        · exact Or.inr ⟨p.2, List.mem_cons_self p rest, hf⟩
        · exact Or.inl hacc'
      · exact Or.inr ⟨c, List.mem_cons_of_mem p hc, hflag⟩
    · rintro (hacc | ⟨c, hc, hflag⟩)
      · exact Or.inl (mem_formatStep_fst.mpr (Or.inr hacc))
      · rcases List.mem_cons.mp hc with heq | hcr
        · have hn : n = p.1 := congrArg Prod.fst heq
          exact Or.inl (mem_formatStep_fst.mpr (Or.inl ⟨hn, hn ▸ hflag⟩))
        · exact Or.inr ⟨c, hcr, hflag⟩

theorem foldl_formatStep_snd : ∀ (l : List (String × String))
    (acc : List String × List String) (n : String),
    n ∈ (l.foldl formatStep acc).2 ↔
      n ∈ acc.2 ∨
        ∃ c, (n, c) ∈ l ∧ strStartsWith n "kAudioFormatFlag" = true ∧
          c ≠ "0" := by
  intro l
  induction l with
  | nil => simp
  | cons p rest ih =>
    intro acc n
    simp only [List.foldl_cons]
    rw [ih]
    constructor
    · rintro (hacc | ⟨c, hc, hflag, hz⟩)
      · rcases mem_formatStep_snd.mp hacc with ⟨rfl, hf, hz⟩ | hacc'
        · exact Or.inr ⟨p.2, List.mem_cons_self p rest, hf, hz⟩
        · exact Or.inl hacc'
      · exact Or.inr ⟨c, List.mem_cons_of_mem p hc, hflag, hz⟩
    · rintro (hacc | ⟨c, hc, hflag, hz⟩)
      · exact Or.inl (mem_formatStep_snd.mpr (Or.inr hacc))
      · rcases List.mem_cons.mp hc with heq | hcr
        · have hn : n = p.1 := congrArg Prod.fst heq
          have hcz : c = p.2 := congrArg Prod.snd heq
          exact Or.inl (mem_formatStep_snd.mpr
            (Or.inl ⟨hn, hn ▸ hflag, hcz ▸ hz⟩))
        · exact Or.inr ⟨c, hcr, hflag, hz⟩

/-- Membership in the final formatID set. -/
theorem mem_fillFormats_fst (l : List (String × String)) (n : String) :
    n ∈ (fillFormats l).1 ↔
      ∃ c, (n, c) ∈ l ∧ strStartsWith n "kAudioFormatFlag" = false := by
  unfold fillFormats
  rw [foldl_formatStep_fst]
  simp

/-- Membership in the final formatFlag set. -/
theorem mem_fillFormats_snd (l : List (String × String)) (n : String) :
    n ∈ (fillFormats l).2 ↔
      ∃ c, (n, c) ∈ l ∧ strStartsWith n "kAudioFormatFlag" = true ∧
        c ≠ "0" := by
  unfold fillFormats
  rw [foldl_formatStep_snd]
  simp

theorem foldl_formatStep_nodup : ∀ (l : List (String × String))
    (acc : List String × List String), acc.1.Nodup → acc.2.Nodup →
    (l.foldl formatStep acc).1.Nodup ∧ (l.foldl formatStep acc).2.Nodup := by
  intro l
  induction l with
  | nil => intro acc h1 h2; exact ⟨h1, h2⟩
  | cons p rest ih =>
    intro acc h1 h2
    simp only [List.foldl_cons]
    apply ih
    · unfold formatStep
      split_ifs <;> simp [nodup_setInsert, h1]
    · unfold formatStep
      split_ifs <;> simp [nodup_setInsert, h2]

theorem fillFormats_nodup (l : List (String × String)) :
    (fillFormats l).1.Nodup ∧ (fillFormats l).2.Nodup :=
  foldl_formatStep_nodup l ([], []) List.nodup_nil List.nodup_nil

/-! ### Semantics of the rendered FormatFlagsToString accumulator -/

theorem str_append_ne_empty_left {a : String} (b : String) (h : a ≠ "") :
    a ++ b ≠ "" := by
  intro he
  have hd := congrArg String.data he
  simp only [String.data_append] at hd
  rcases List.append_eq_nil.mp hd with ⟨ha, _⟩
  exact h (String.ext ha)

theorem foldl_ffStep_filter (env : String → Nat) (flags : Nat) :
    ∀ (l : List String) (acc : String),
    l.foldl (ffStep env flags) acc =
      (l.filter (fun n => (flags &&& env n) != 0)).foldl barStep acc := by
  intro l
  induction l with
  | nil => intro acc; rfl
  | cons x xs ih =>
    intro acc
    by_cases hx : ((flags &&& env x) != 0) = true
    · have hstep : ffStep env flags acc x = barStep acc x := by
        unfold ffStep barStep
        rw [if_pos hx]
        by_cases hacc : acc ≠ ""
        · rw [if_pos hacc, if_pos hacc, String.append_assoc]
        · rw [if_neg hacc, if_neg hacc]
          have : acc = "" := not_not.mp (fun hne => hacc (by simpa using hne))
          rw [this, String.empty_append]
      simp only [List.foldl_cons, List.filter_cons, hx, ite_true, hstep, ih]
    · have hstep : ffStep env flags acc x = acc := by
        unfold ffStep
        rw [if_neg (by simpa using hx)]
      have hx' : ((flags &&& env x) != 0) = false := by simpa using hx
      simp [List.filter_cons, hx', hstep, ih]

theorem str_join_cons (a : String) (l : List String) :
    String.join (a :: l) = a ++ String.join l := by
  apply String.ext
  simp [String.data_join, String.data_append]

theorem foldl_barStep_join : ∀ (xs : List String) (acc : String), acc ≠ "" →
    xs.foldl barStep acc = acc ++ String.join (xs.map (fun n => "|" ++ n)) := by
  intro xs
  induction xs with
  | nil =>
    intro acc _
    show acc = acc ++ String.join []
    rw [show String.join ([] : List String) = "" from rfl, String.append_empty]
  | cons x rest ih =>
    intro acc hacc
    have hbx : barStep acc x = acc ++ "|" ++ x := by
      unfold barStep; rw [if_pos hacc]
    have hne : acc ++ "|" ++ x ≠ "" :=
      str_append_ne_empty_left x (str_append_ne_empty_left "|" hacc)
    rw [List.foldl_cons, hbx, ih _ hne]
    simp [str_join_cons, String.append_assoc]

theorem foldl_barStep_sepJoin : ∀ (xs : List String), (∀ n ∈ xs, n ≠ "") →
    xs.foldl barStep "" = sepJoin "|" xs := by
  intro xs hxs
  cases xs with
  | nil => rfl
  | cons x rest =>
    have hbx : barStep "" x = x := by
      unfold barStep
      rw [if_neg (by simp)]
    simp only [List.foldl_cons, hbx]
    rw [foldl_barStep_join rest x (hxs x (List.mem_cons_self x rest))]
    rfl

/-! ### Single-code conflict groups -/

theorem notExcluded_spec {n : String} (h : notExcluded n = true) :
    strStartsWith n "kAudioObjectPropertyScope" = false ∧
    strStartsWith n "kAudioObjectPropertyElement" = false ∧
    strStartsWith n "kAudioHardware" = false ∧
    strStartsWith n "kAudioServerPlugInCustomPropertyDataType" = false := by
  simp only [notExcluded, Bool.not_eq_true', Bool.or_eq_false_iff] at h
  exact ⟨h.1.1.1, h.1.1.2, h.1.2, h.2⟩

theorem selector_is_better_irrefl (a : String) : selector_is_better a a = false := by
  simp [selector_is_better]

theorem selector_is_better_asymm {a b : String}
    (h : selector_is_better a b = true) : selector_is_better b a = false := by
  unfold selector_is_better at h ⊢
  by_cases hab : is_highprio a = is_highprio b
  · rw [if_pos hab] at h
    rw [if_pos hab.symm]
    simp only [decide_eq_true_eq] at h
    simp only [decide_eq_false_iff_not, not_lt]
    exact Nat.le_of_lt h
  · rw [if_neg hab] at h
    rw [if_neg (fun e => hab e.symm)]
    cases hb : is_highprio b
    · rfl
    · exact absurd (h.trans hb.symm) hab

theorem selectorStep_singleton (cur n c : String) (hnx : notExcluded n = true) :
    selectorStep ⟨[(cur, c)], [(c, cur)]⟩ n c =
      some ⟨[(pick cur n, c)], [(c, pick cur n)]⟩ := by
  obtain ⟨h1, h2, h3, h4⟩ := notExcluded_spec hnx
  unfold selectorStep
  simp only [h1, h2, h3, h4, Bool.false_eq_true, if_false]
  have hlook : dictLookup [(c, cur)] c = some cur := by simp [dictLookup]
  rw [hlook]
  by_cases hbet : selector_is_better n cur
  · have hs : dictLookup [(cur, c)] cur = some c := by simp [dictLookup]
    simp [hbet, hs, pick, dictErase, dictInsert, dictLookup]
  · simp [hbet, pick]

theorem selectorStep_empty (n c : String) (hnx : notExcluded n = true) :
    selectorStep ⟨[], []⟩ n c = some ⟨[(n, c)], [(c, n)]⟩ := by
  obtain ⟨h1, h2, h3, h4⟩ := notExcluded_spec hnx
  unfold selectorStep
  simp [h1, h2, h3, h4, dictLookup, dictInsert]

theorem fillFrom_single_code (c : String) : ∀ (l : List (String × String)) (cur : String),
    (∀ p ∈ l, p.2 = c ∧ notExcluded p.1 = true) →
    fillSelectorFrom ⟨[(cur, c)], [(c, cur)]⟩ l =
      some ⟨[((l.map Prod.fst).foldl pick cur, c)],
            [(c, (l.map Prod.fst).foldl pick cur)]⟩ := by
  intro l
  induction l with
  | nil => intro cur _; rfl
  | cons p rest ih =>
    intro cur hall
    obtain ⟨n, c₀⟩ := p
    obtain ⟨hc, hnx⟩ := hall (n, c₀) (List.mem_cons_self _ _)
    have hc' : c₀ = c := hc
    rw [hc']
    simp only [fillSelectorFrom, selectorStep_singleton cur n c hnx]
    rw [ih (pick cur n) (fun q hq => hall q (List.mem_cons_of_mem _ hq))]
    simp

theorem foldl_pick_best (m : String) : ∀ (names : List String) (cur : String),
    (∀ n ∈ names, n ≠ m → selector_is_better m n = true) →
    (cur = m ∨ selector_is_better m cur = true) →
    (m ∈ names ∨ cur = m) →
    names.foldl pick cur = m := by
  intro names
  induction names with
  | nil =>
    intro cur _ _ hmem
    rcases hmem with h | h
    · exact absurd h (List.not_mem_nil m)
    · exact h
  | cons x xs ih =>
    intro cur hb hcur hmem
    simp only [List.foldl_cons]
    by_cases hxm : x = m
    · have hcur' : pick cur x = x := by
        rcases hcur with hcm | hbet
        · rw [hxm, hcm]
          exact ite_self m
        · unfold pick
          rw [if_pos (hxm ▸ hbet)]
      rw [hcur', hxm]
      exact ih m (fun n hn hne => hb n (List.mem_cons_of_mem _ hn) hne)
        (Or.inl rfl) (Or.inr rfl)
    · have hbx : selector_is_better m x = true :=
        hb x (List.mem_cons_self _ _) hxm
      have hb' : ∀ n ∈ xs, n ≠ m → selector_is_better m n = true :=
        fun n hn hne => hb n (List.mem_cons_of_mem _ hn) hne
      rcases hcur with hcm | hbet
      · have hpk : pick cur x = cur := by
          unfold pick
          have hf : selector_is_better x cur = false := by
            rw [hcm]
            exact selector_is_better_asymm hbx
          simp [hf]
        rw [hpk]
        exact ih cur hb' (Or.inl hcm) (Or.inr hcm)
      · have hnew : selector_is_better m (pick cur x) = true := by
          unfold pick
          split_ifs
          · exact hbx
          · exact hbet
        have hmem' : m ∈ xs := by
          rcases hmem with hmx | hcm
          · rcases List.mem_cons.mp hmx with hme | h
            · exact absurd hme.symm hxm
            · exact h
          · rw [hcm, selector_is_better_irrefl] at hbet
            exact absurd hbet Bool.false_ne_true
        exact ih (pick cur x) hb' (Or.inr hnew) (Or.inl hmem')

/-- In a conflict group sharing one code, a name strictly better than every
other discovered name is the final sole content of the selector mapping
regardless of discovery order. -/
theorem fillSelector_conflict_best (l : List (String × String)) (c m : String)
    (hall : ∀ p ∈ l, p.2 = c ∧ notExcluded p.1 = true)
    (hm : m ∈ l.map Prod.fst)
    (hbest : ∀ n ∈ l.map Prod.fst, n ≠ m → selector_is_better m n = true) :
    fillSelector l = some ⟨[(m, c)], [(c, m)]⟩ := by
  cases l with
  | nil => exact absurd hm (by simp)
  | cons p rest =>
    obtain ⟨n₀, c₀⟩ := p
    obtain ⟨hc, hnx⟩ := hall (n₀, c₀) (List.mem_cons_self _ _)
    have hc' : c₀ = c := hc
    unfold fillSelector
    rw [hc']
    simp only [fillSelectorFrom, selectorStep_empty n₀ c hnx]
    rw [fillFrom_single_code c rest n₀
      (fun q hq => hall q (List.mem_cons_of_mem _ hq))]
    have hw : (rest.map Prod.fst).foldl pick n₀ = m := by
      apply foldl_pick_best m (rest.map Prod.fst) n₀
      · intro n hn hne
        exact hbest n (by simp [hn]) hne
      · by_cases h0 : n₀ = m
        · exact Or.inl h0
        · exact Or.inr (hbest n₀ (by simp) h0)
      · simp only [List.map_cons, List.mem_cons] at hm
        rcases hm with hme | h
        · exact Or.inr hme.symm
        · exact Or.inl h
    rw [hw]

/-! ### Remaining structural helpers -/

theorem foldl_dictInsert_nodup : ∀ (l : List (String × String)) (d : Dict),
    (dictKeys d).Nodup →
    (dictKeys (l.foldl (fun d p => dictInsert d p.1 p.2) d)).Nodup := by
  intro l
  induction l with
  | nil => intro d h; exact h
  | cons p rest ih =>
    intro d h
    simp only [List.foldl_cons]
    exact ih _ (nodup_dictKeys_dictInsert h)

theorem fillMap_keys_nodup (l : List (String × String)) :
    (dictKeys (fillMap l)).Nodup :=
  foldl_dictInsert_nodup l [] (by simp [dictKeys])

/-! ### Claims -/

/-- Claim C9: after processing each selector match, every entry name → code
of selector2code satisfies code2selector[code] == name: the forward map is a
sub-relation of the inverse of the reverse map (the reverse map may hold
additional stale entries). -/
theorem selector_forward_consistency (l : List (String × String)) (st : SelState)
    (hrun : fillSelector l = some st) :
    ∀ n cc, (n, cc) ∈ st.selector2code →
      dictLookup st.code2selector cc = some n :=
  fillSelectorFrom_fwd l ⟨[], []⟩ st hrun
    (fun m cc hm => absurd hm (List.not_mem_nil (m, cc)))

/-- Witness for C9: a name rebound to a second code leaves a stale reverse
entry, yet every forward entry still agrees with the reverse map. -/
theorem selector_forward_consistency_witness :
    dictLookup
      (SelState.mk [("kAudioBoxPropertyAaa", "bbbb")]
        [("aaaa", "kAudioBoxPropertyAaa"), ("bbbb", "kAudioBoxPropertyAaa")]).code2selector
      "bbbb" = some "kAudioBoxPropertyAaa" :=
  selector_forward_consistency
    [("kAudioBoxPropertyAaa", "aaaa"), ("kAudioBoxPropertyAaa", "bbbb")]
    (SelState.mk [("kAudioBoxPropertyAaa", "bbbb")]
      [("aaaa", "kAudioBoxPropertyAaa"), ("bbbb", "kAudioBoxPropertyAaa")])
    (by decide) "kAudioBoxPropertyAaa" "bbbb" (by decide)

/-- Claim C2: when the selector extraction pass completes, no two distinct
names of the final selector mapping carry the same code. -/
theorem selector_mapping_unique_codes (l : List (String × String)) (st : SelState)
    (hrun : fillSelector l = some st) (n₁ n₂ cc : String)
    (h₁ : (n₁, cc) ∈ st.selector2code) (h₂ : (n₂, cc) ∈ st.selector2code) :
    n₁ = n₂ := by
  have inv := fillSelectorFrom_fwd l ⟨[], []⟩ st hrun
    (fun m c hm => absurd hm (List.not_mem_nil (m, c)))
  have e₁ := inv n₁ cc h₁
  have e₂ := inv n₂ cc h₂
  exact Option.some.inj (e₁.symm.trans e₂)

/-- Witness for C2: a run with a resolved conflict, where the surviving
entry for the shared code is unique. -/
theorem selector_mapping_unique_codes_witness :
    "kAudioDevicePropertyBb" = "kAudioDevicePropertyBb" :=
  selector_mapping_unique_codes
    [("kAudioBoxPropertyAaa", "xxxx"), ("kAudioDevicePropertyBb", "xxxx")]
    (SelState.mk [("kAudioDevicePropertyBb", "xxxx")]
      [("xxxx", "kAudioDevicePropertyBb")])
    (by decide) "kAudioDevicePropertyBb" "kAudioDevicePropertyBb" "xxxx"
    (by decide) (by decide)

/-- Claim C4: a name starting with one of the four exclusion markers (scope,
element, hardware-error, custom-property-type) never appears in the final
selector mapping, on any input. -/
theorem selector_exclusion_correct (l : List (String × String)) (st : SelState)
    (hrun : fillSelector l = some st) (n cc : String)
    (hex : strStartsWith n "kAudioObjectPropertyScope" = true ∨
      strStartsWith n "kAudioObjectPropertyElement" = true ∨
      strStartsWith n "kAudioHardware" = true ∨
      strStartsWith n "kAudioServerPlugInCustomPropertyDataType" = true) :
    (n, cc) ∉ st.selector2code := by
  intro hmem
  have inv := fillSelectorFrom_excl l ⟨[], []⟩ st hrun
    (fun p hp => absurd hp (List.not_mem_nil p))
  obtain ⟨h1, h2, h3, h4⟩ := notExcluded_spec (inv (n, cc) hmem)
  rcases hex with h | h | h | h
  · exact absurd (h1.symm.trans h) Bool.false_ne_true
  · exact absurd (h2.symm.trans h) Bool.false_ne_true
  · exact absurd (h3.symm.trans h) Bool.false_ne_true
  · exact absurd (h4.symm.trans h) Bool.false_ne_true

/-- Witness for C4: a scope marker discovered by the selector scan is absent
from the final selector mapping. -/
theorem selector_exclusion_correct_witness :
    ("kAudioObjectPropertyScopeGlobal", "glob") ∉
      (SelState.mk [("kAudioBoxPropertyAaa", "xxxx")]
        [("xxxx", "kAudioBoxPropertyAaa")]).selector2code :=
  selector_exclusion_correct
    [("kAudioObjectPropertyScopeGlobal", "glob"), ("kAudioBoxPropertyAaa", "xxxx")]
    (SelState.mk [("kAudioBoxPropertyAaa", "xxxx")]
      [("xxxx", "kAudioBoxPropertyAaa")])
    (by decide) "kAudioObjectPropertyScopeGlobal" "glob"
    (Or.inl (by decide))

/-- Counterexample to claim C1 as stated: two conflicting names of equal
priority class and equal length — permuting their discovery order flips the
final winner for the shared code, because an exact tie keeps the
incumbent. -/
theorem selector_order_dependence_on_tie :
    (fillSelector [("kAudioBoxPropertyAaa", "xxxx"),
        ("kAudioBoxPropertyBbb", "xxxx")]).map SelState.selector2code =
      some [("kAudioBoxPropertyAaa", "xxxx")] ∧
    (fillSelector [("kAudioBoxPropertyBbb", "xxxx"),
        ("kAudioBoxPropertyAaa", "xxxx")]).map SelState.selector2code =
      some [("kAudioBoxPropertyBbb", "xxxx")] := by
  decide

/-- Claim C1 as amended: for a conflict group sharing one code, whenever one
discovered name is strictly better (by the priority/length rule) than every
other discovered name, permuting the discovery order never changes the
outcome: the strictly best name is the sole final winner. -/
theorem selector_disambiguation_order_invariant
    (l₁ l₂ : List (String × String)) (c m : String)
    (hperm : l₁.Perm l₂)
    (hall : ∀ p ∈ l₁, p.2 = c ∧ notExcluded p.1 = true)
    (hm : m ∈ l₁.map Prod.fst)
    (hbest : ∀ n ∈ l₁.map Prod.fst, n ≠ m → selector_is_better m n = true) :
    fillSelector l₁ = fillSelector l₂ ∧
      fillSelector l₁ = some ⟨[(m, c)], [(c, m)]⟩ := by
  have h₁ := fillSelector_conflict_best l₁ c m hall hm hbest
  have h₂ := fillSelector_conflict_best l₂ c m
    (fun p hp => hall p (hperm.mem_iff.mpr hp))
    ((hperm.map Prod.fst).mem_iff.mp hm)
    (fun n hn hne => hbest n ((hperm.map Prod.fst).mem_iff.mpr hn) hne)
  exact ⟨h₁.trans h₂.symm, h₁⟩

/-- Witness for the amended C1: a high-priority name beats a longer
non-priority name under both discovery orders. -/
theorem selector_disambiguation_order_invariant_witness :
    fillSelector [("kAudioBoxPropertyAaa", "xxxx"),
        ("kAudioDevicePropertyBb", "xxxx")] =
      fillSelector [("kAudioDevicePropertyBb", "xxxx"),
        ("kAudioBoxPropertyAaa", "xxxx")] ∧
    fillSelector [("kAudioBoxPropertyAaa", "xxxx"),
        ("kAudioDevicePropertyBb", "xxxx")] =
      some ⟨[("kAudioDevicePropertyBb", "xxxx")],
            [("xxxx", "kAudioDevicePropertyBb")]⟩ :=
  selector_disambiguation_order_invariant
    [("kAudioBoxPropertyAaa", "xxxx"), ("kAudioDevicePropertyBb", "xxxx")]
    [("kAudioDevicePropertyBb", "xxxx"), ("kAudioBoxPropertyAaa", "xxxx")]
    "xxxx" "kAudioDevicePropertyBb"
    (by decide) (by decide) (by decide) (by decide)

/-- Claim C3: the disambiguation preference rule.  The comparison holds
exactly when the challenger is high-priority and the incumbent is not, or
both are in the same priority class and the challenger is strictly shorter;
and on a conflicting step the stored winner for the code is the challenger
exactly when the comparison holds (so an exact tie keeps the incumbent). -/
theorem selector_preference_rule (a b code : String) (st st' : SelState)
    (hb : dictLookup st.code2selector code = some b)
    (ha : notExcluded a = true)
    (hs : (dictLookup st.selector2code b).isSome = true)
    (hstep : selectorStep st a code = some st') :
    (selector_is_better a b = true ↔
      (is_highprio a = true ∧ is_highprio b = false) ∨
      (is_highprio a = is_highprio b ∧ a.length < b.length)) ∧
    dictLookup st'.code2selector code =
      some (if selector_is_better a b then a else b) := by
  constructor
  · cases hA : is_highprio a <;> cases hB : is_highprio b <;>
      simp [selector_is_better, hA, hB]
  · obtain ⟨h1, h2, h3, h4⟩ := notExcluded_spec ha
    unfold selectorStep at hstep
    simp only [h1, h2, h3, h4, Bool.false_eq_true, if_false, hb] at hstep
    by_cases hbet : selector_is_better a b
    · rw [if_pos hbet, if_pos hs] at hstep
      have hst : st' = ⟨dictInsert (dictErase st.selector2code b) a code,
          dictInsert st.code2selector code a⟩ := (Option.some.inj hstep).symm
      rw [hst, if_pos hbet]
      simp [dictLookup_dictInsert]
    · rw [if_neg hbet] at hstep
      have hst : st' = st := (Option.some.inj hstep).symm
      rw [hst, if_neg hbet]
      exact hb

/-- Witness for C3: a concrete conflicting step where a high-priority
challenger replaces a non-priority incumbent. -/
theorem selector_preference_rule_witness :
    (selector_is_better "kAudioDevicePropertyBb" "kAudioBoxPropertyAaa" = true ↔
      (is_highprio "kAudioDevicePropertyBb" = true ∧
        is_highprio "kAudioBoxPropertyAaa" = false) ∨
      (is_highprio "kAudioDevicePropertyBb" = is_highprio "kAudioBoxPropertyAaa" ∧
        ("kAudioDevicePropertyBb" : String).length <
          ("kAudioBoxPropertyAaa" : String).length)) ∧
    dictLookup
      (SelState.mk [("kAudioDevicePropertyBb", "xxxx")]
        [("xxxx", "kAudioDevicePropertyBb")]).code2selector "xxxx" =
      some (if selector_is_better "kAudioDevicePropertyBb" "kAudioBoxPropertyAaa"
        then "kAudioDevicePropertyBb" else "kAudioBoxPropertyAaa") :=
  selector_preference_rule "kAudioDevicePropertyBb" "kAudioBoxPropertyAaa" "xxxx"
    (SelState.mk [("kAudioBoxPropertyAaa", "xxxx")]
      [("xxxx", "kAudioBoxPropertyAaa")])
    (SelState.mk [("kAudioDevicePropertyBb", "xxxx")]
      [("xxxx", "kAudioDevicePropertyBb")])
    (by decide) (by decide) (by decide) (by decide)

/-- Counterexample to claim C5 as stated: a flag-prefixed definition whose
literal value is the textual zero is classified into neither of the two
sets, not into exactly one. -/
theorem zero_flag_in_neither_set :
    "kAudioFormatFlagFake" ∉ (fillFormats [("kAudioFormatFlagFake", "0")]).1 ∧
    "kAudioFormatFlagFake" ∉ (fillFormats [("kAudioFormatFlagFake", "0")]).2 := by
  decide

/-- Claim C5 as amended: a matched definition goes into formatID when its
name lacks the flag sub-prefix, into formatFlag when it has the flag
sub-prefix and some matched value differs from the zero literal, and is
dropped from both sets when it has the flag sub-prefix and all its matched
values are the zero literal. -/
theorem format_family_classification (l : List (String × String)) (n c : String)
    (hmem : (n, c) ∈ l) :
    (strStartsWith n "kAudioFormatFlag" = false → n ∈ (fillFormats l).1) ∧
    (strStartsWith n "kAudioFormatFlag" = true → c ≠ "0" →
      n ∈ (fillFormats l).2) ∧
    (strStartsWith n "kAudioFormatFlag" = true → n ∉ (fillFormats l).1) ∧
    (strStartsWith n "kAudioFormatFlag" = true →
      (∀ c', (n, c') ∈ l → c' = "0") → n ∉ (fillFormats l).2) := by
  refine ⟨?_, ?_, ?_, ?_⟩
  · intro hf
    exact (mem_fillFormats_fst l n).mpr ⟨c, hmem, hf⟩
  · intro hf hz
    exact (mem_fillFormats_snd l n).mpr ⟨c, hmem, hf, hz⟩
  · intro hf hin
    obtain ⟨c', _, hf'⟩ := (mem_fillFormats_fst l n).mp hin
    exact absurd (hf'.symm.trans hf) Bool.false_ne_true
  · intro hf hall hin
    obtain ⟨c', hc', _, hz⟩ := (mem_fillFormats_snd l n).mp hin
    exact hz (hall c' hc')

/-- Witness for the amended C5: a nonzero flag definition lands in the
formatFlag set. -/
theorem format_family_classification_witness :
    "kAudioFormatFlagIsFloat" ∈
      (fillFormats [("kAudioFormatFlagIsFloat", "1"),
        ("kAudioFormatLinearPCM", "lpcm")]).2 :=
  (format_family_classification
    [("kAudioFormatFlagIsFloat", "1"), ("kAudioFormatLinearPCM", "lpcm")]
    "kAudioFormatFlagIsFloat" "1" (by decide)).2.1 (by decide) (by decide)

/-- Claim C6: a format-flag name all of whose matched literal values are the
zero literal never appears in the final formatFlag set. -/
theorem zero_flag_never_in_flag_set (l : List (String × String)) (n : String)
    (hz : ∀ c, (n, c) ∈ l → c = "0") : n ∉ (fillFormats l).2 := by
  intro hin
  obtain ⟨c, hc, _, hne⟩ := (mem_fillFormats_snd l n).mp hin
  exact hne (hz c hc)

/-- Witness for C6: with IsFloat = 1 and IsBigEndian = 0 in the input, the
zero-valued flag is absent from the formatFlag set. -/
theorem zero_flag_never_in_flag_set_witness :
    "kAudioFormatFlagIsBigEndian" ∉
      (fillFormats [("kAudioFormatFlagIsFloat", "1"),
        ("kAudioFormatFlagIsBigEndian", "0")]).2 :=
  zero_flag_never_in_flag_set
    [("kAudioFormatFlagIsFloat", "1"), ("kAudioFormatFlagIsBigEndian", "0")]
    "kAudioFormatFlagIsBigEndian"
    (by
      intro c hc
      rcases List.mem_cons.mp hc with h | h
      · have he : ("kAudioFormatFlagIsBigEndian" : String) =
            "kAudioFormatFlagIsFloat" := congrArg Prod.fst h
        exact absurd he (by decide)
      · rcases List.mem_cons.mp h with h' | h'
        · exact congrArg Prod.snd h'
        · exact absurd h' (List.not_mem_nil _))

/-- Counterexample to claim C7 as stated: when the error mapping holds a
name that sorts before kAudioHardwareNoError, the case-label sequence of the
generated StatusToString is not strictly ascending, because the hard-coded
success case is emitted ahead of the sorted entries. -/
theorem status_labels_not_sorted :
    ¬ (statusCaseLabels
        (fillMap [("kAudioHardwareBadDevice", "xdev")])).Pairwise strlt := by
  decide

/-- Claim C7 as amended: for every possible content of the six mappings and
sets, the mapping-derived case labels of every generated per-family function
(and the bit-test branches of FormatFlagsToString) are strictly ascending in
the lexicographic name order; StatusToString alone additionally emits the
hard-coded kAudioHardwareNoError case ahead of its sorted error labels. -/
theorem emission_sorted (selM classM scopeM opM errM fmtM : List (String × String))
    (st : SelState) (hsel : fillSelector selM = some st) :
    (mapCaseLabels st.selector2code).Pairwise strlt ∧
    (mapCaseLabels (fillMap classM)).Pairwise strlt ∧
    (mapCaseLabels (fillMap scopeM)).Pairwise strlt ∧
    (mapCaseLabels (fillMap opM)).Pairwise strlt ∧
    (mapCaseLabels (fillMap errM)).Pairwise strlt ∧
    (setCaseLabels (fillFormats fmtM).1).Pairwise strlt ∧
    (setCaseLabels (fillFormats fmtM).2).Pairwise strlt ∧
    statusCaseLabels (fillMap errM) =
      "kAudioHardwareNoError" :: mapCaseLabels (fillMap errM) := by
  have hsn := fillSelectorFrom_nodup selM ⟨[], []⟩ st hsel (by simp [dictKeys])
  refine ⟨sortedNames_strict _ hsn,
    sortedNames_strict _ (fillMap_keys_nodup classM),
    sortedNames_strict _ (fillMap_keys_nodup scopeM),
    sortedNames_strict _ (fillMap_keys_nodup opM),
    sortedNames_strict _ (fillMap_keys_nodup errM),
    sortedNames_strict _ (fillFormats_nodup fmtM).1,
    sortedNames_strict _ (fillFormats_nodup fmtM).2, rfl⟩

/-- Witness for the amended C7 on concrete inputs for all six families. -/
theorem emission_sorted_witness :
    (mapCaseLabels (SelState.mk [("kAudioBoxPropertyAaa", "xxxx")]
      [("xxxx", "kAudioBoxPropertyAaa")]).selector2code).Pairwise strlt ∧
    (mapCaseLabels (fillMap [("kAudioBoxClassID", "abox")])).Pairwise strlt ∧
    (mapCaseLabels (fillMap [("kAudioObjectPropertyScopeGlobal", "glob"),
      ("kAudioObjectPropertyScopeInput", "inpt")])).Pairwise strlt ∧
    (mapCaseLabels (fillMap [("kAudioServerPlugInIOOperationReadInput", "read")])).Pairwise strlt ∧
    (mapCaseLabels (fillMap [("kAudioHardwareBadDevice", "xdev")])).Pairwise strlt ∧
    (setCaseLabels (fillFormats [("kAudioFormatLinearPCM", "lpcm"),
      ("kAudioFormatFlagIsFloat", "1")]).1).Pairwise strlt ∧
    (setCaseLabels (fillFormats [("kAudioFormatLinearPCM", "lpcm"),
      ("kAudioFormatFlagIsFloat", "1")]).2).Pairwise strlt ∧
    statusCaseLabels (fillMap [("kAudioHardwareBadDevice", "xdev")]) =
      "kAudioHardwareNoError" ::
        mapCaseLabels (fillMap [("kAudioHardwareBadDevice", "xdev")]) :=
  emission_sorted [("kAudioBoxPropertyAaa", "xxxx")]
    [("kAudioBoxClassID", "abox")]
    [("kAudioObjectPropertyScopeGlobal", "glob"),
      ("kAudioObjectPropertyScopeInput", "inpt")]
    [("kAudioServerPlugInIOOperationReadInput", "read")]
    [("kAudioHardwareBadDevice", "xdev")]
    [("kAudioFormatLinearPCM", "lpcm"), ("kAudioFormatFlagIsFloat", "1")]
    (SelState.mk [("kAudioBoxPropertyAaa", "xxxx")]
      [("xxxx", "kAudioBoxPropertyAaa")])
    (by decide)

/-- Claim C8: the generator is deterministic — two runs of extraction,
disambiguation and template rendering on the same match lists produce
identical mappings, sets and generated text.  The embedded generator is a
pure function of its input, so the two-run statement is definitional. -/
theorem generator_deterministic (selM classM scopeM opM errM fmtM :
    List (String × String)) :
    runGenerator selM classM scopeM opM errM fmtM =
      runGenerator selM classM scopeM opM errM fmtM :=
  rfl

/-- Claim C10: the generated FormatFlagsToString concatenates the names of
the matching flag bits, in sorted name order, separated by the bar
delimiter, and yields the empty string — not the numeric fallback — when no
flag bit matches. -/
theorem formatFlags_render_semantics (env : String → Nat) (flags : Nat)
    (fl : List String) (hne : ∀ n ∈ fl, n ≠ "") :
    formatFlagsToString env flags fl =
      sepJoin "|" ((setCaseLabels fl).filter
        (fun n => (flags &&& env n) != 0)) ∧
    ((∀ n ∈ fl, flags &&& env n = 0) →
      formatFlagsToString env flags fl = "") := by
  have hmain : formatFlagsToString env flags fl =
      sepJoin "|" ((setCaseLabels fl).filter
        (fun n => (flags &&& env n) != 0)) := by
    unfold formatFlagsToString
    rw [foldl_ffStep_filter]
    apply foldl_barStep_sepJoin
    intro n hn
    have hn' : n ∈ setCaseLabels fl := (List.mem_filter.mp hn).1
    have hn'' : n ∈ fl := by
      simpa [setCaseLabels, sortedNames] using hn'
    exact hne n hn''
  refine ⟨hmain, fun hz => ?_⟩
  rw [hmain]
  have hfil : (setCaseLabels fl).filter
      (fun n => (flags &&& env n) != 0) = [] := by
    apply List.filter_eq_nil.mpr
    intro n hn
    have hn' : n ∈ fl := by
      simpa [setCaseLabels, sortedNames] using hn
    simp [hz n hn']
  rw [hfil]
  rfl

/-- Witness for C10: one flag whose bit matches renders as its bare name. -/
theorem formatFlags_render_semantics_witness :
    formatFlagsToString constOneEnv 1 ["kAudioFormatFlagIsFloat"] =
      "kAudioFormatFlagIsFloat" :=
  (formatFlags_render_semantics constOneEnv 1 ["kAudioFormatFlagIsFloat"]
    (by decide)).1.trans (by decide)
